import Mathlib

/-!
Shallow embedding of `test_reporting/junit_xml_parser.py`: validation and
transformation of JUnit XML test-result documents.

XML trees are modelled as the `Element` inductive below, mirroring the
interface of Python's `xml.etree.ElementTree` that the source uses
(`get`, `keys`, `find`, `findall`, `iterfind` on direct children, and the
truthiness of an element, which in ElementTree is "has at least one child").
Python's `float(...)` success test is abstracted as a boolean parameter
`floatParses`, since it is a Python builtin and the source only uses
whether it raises.  File-system and XML-parsing effects of the two entry
points are reified into `XmlStream` / `XmlFile` records carrying the
observations the source code branches on.
-/

set_option autoImplicit false

namespace JUnitXml

/-- An XML element: tag, attribute dictionary, child elements, in document
order.  Attribute dictionaries are association lists with the first binding
authoritative, matching Python dict lookup (keys are unique in real
documents, and lookup only ever sees the first binding here). -/
inductive Element where
  | mk (tag : String) (attrs : List (String × String)) (children : List Element)
deriving Repr

def Element.tag : Element → String
  | .mk t _ _ => t

def Element.attrs : Element → List (String × String)
  | .mk _ a _ => a

def Element.children : Element → List Element
  | .mk _ _ c => c

/-- Dictionary lookup on an association list (Python `dict.__getitem__` /
`dict.get` with default `None`). -/
def dict_get {κ α : Type} [BEq κ] (k : κ) : List (κ × α) → Option α
  | [] => none
  | (k', v) :: rest => if k' == k then some v else dict_get k rest

/-- Python dict assignment `m[k] = v`: update in place when the key exists,
otherwise append (dicts preserve insertion order). -/
def dict_insert {κ α : Type} [BEq κ] (m : List (κ × α)) (k : κ) (v : α) : List (κ × α) :=
  match m with
  | [] => [(k, v)]
  | (k', v') :: rest => if k' == k then (k, v) :: rest else (k', v') :: dict_insert rest k v

/-- `element.get(key)` (default `None`). -/
def Element.get (e : Element) (key : String) : Option String :=
  dict_get key e.attrs

/-- `element.keys()`. -/
def Element.keys (e : Element) : List String :=
  e.attrs.map Prod.fst

/-- `element.find(tag)`: first direct child with the given tag, else `None`. -/
def Element.find (e : Element) (t : String) : Option Element :=
  e.children.find? (fun c => c.tag == t)

/-- `element.findall(tag)`: all direct children with the given tag, in
document order. -/
def Element.findall (e : Element) (t : String) : List Element :=
  e.children.filter (fun c => c.tag == t)

/-- `element.iterfind(tag)` over a plain tag path visits the same direct
children as `findall`, in document order. -/
def Element.iterfind (e : Element) (t : String) : List Element :=
  e.findall t

/-- `MAXIMUM_XML_SIZE = 10e7` in the source, i.e. the number 100000000. -/
def MAXIMUM_XML_SIZE : Nat := 100000000

def TESTSUITE_TAG : String := "testsuite"

/-- The source stores these in a Python `set`; the iteration order below is
the order of the set literal in the source.  All properties proved about
iteration are insensitive to this choice. -/
def REQUIRED_TESTSUITE_ATTRIBUTES : List String :=
  ["time", "tests", "skipped", "failures", "errors"]

def METADATA_TAG : String := "properties"

def METADATA_PROPERTY_TAG : String := "property"

def REQUIRED_METADATA_PROPERTIES : List String :=
  ["topology", "markers", "host", "asic", "platform", "hwsku", "os_version"]

def TESTCASE_TAG : String := "testcase"

def REQUIRED_TESTCASE_ATTRIBUTES : List String :=
  ["classname", "file", "line", "name", "time"]

/-- The reasons carried by `JUnitXMLValidationError` in the source, one
constructor per distinct message shape, carrying the data interpolated into
the message. -/
inductive JErr where
  | tooLarge
  | fileNotFound
  | unparseable
  | suiteTagNotFound
  | suiteAttrNotFound (attr : String)
  | suiteAttrNotNumeric (attr : String) (value : String)
  | metadataElementNotFound
  | metadataNameNotFound
  | unexpectedMetadata (name : String)
  | duplicateMetadata (name : String)
  | metadataValueNotFound (name : String)
  | noTestCasesFound
  | testCaseAttrNotFound (attr : String) (caseName : String)
  | failureMessageNotFound (caseName : Option String)
  | errorMessageNotFound (caseName : Option String)
deriving DecidableEq, Repr

/-- Run a check on each list element in order, stopping at the first
failure (the source's `for` loops that `raise` on the first bad element). -/
def first_error {α ε : Type} (f : α → Except ε Unit) : List α → Except ε Unit
  | [] => .ok ()
  | x :: rest =>
    match f x with
    | .error e => .error e
    | .ok () => first_error f rest

/-- Body of the loop in `_validate_test_summary`.  The source tests
`xml_field not in root.keys()` and then calls `float(root.get(xml_field))`;
for an attribute dictionary, key membership is equivalent to `get`
returning a value (`dict_get_isSome_eq_contains` below). -/
def check_suite_attr (floatParses : String → Bool) (root : Element) (xml_field : String) :
    Except JErr Unit :=
  match root.get xml_field with
  | none => .error (.suiteAttrNotFound xml_field)
  | some v =>
    if floatParses v then .ok () else .error (.suiteAttrNotNumeric xml_field v)

/-- `_validate_test_summary`. -/
def validate_test_summary (floatParses : String → Bool) (root : Element) :
    Except JErr Unit :=
  if root.tag == TESTSUITE_TAG then
    first_error (check_suite_attr floatParses root) REQUIRED_TESTSUITE_ATTRIBUTES
  else .error .suiteTagNotFound

/-- The property loop of `_validate_test_metadata`, carrying the
`seen_properties` accumulator.  The source appends at the tail and tests
membership; consing preserves the membership test. -/
def validate_metadata_props (seen_properties : List String) :
    List Element → Except JErr Unit
  | [] => .ok ()
  | prop :: rest =>
    match prop.get "name" with
    | none => .error .metadataNameNotFound
    | some property_name =>
      -- `if not property_name`: None or the empty string fails.
      if property_name == "" then .error .metadataNameNotFound
      else if REQUIRED_METADATA_PROPERTIES.contains property_name then
        if seen_properties.contains property_name then
          .error (.duplicateMetadata property_name)
        else
          match prop.get "value" with
          | none => .error (.metadataValueNotFound property_name)
          | some _ => validate_metadata_props (property_name :: seen_properties) rest
      else .error (.unexpectedMetadata property_name)

/-- `_validate_test_metadata`.  The source guards with
`if not properties_element:`, which is true both when `find` returned
`None` and when the element is present with zero children (ElementTree
elements are falsy when childless). -/
def validate_test_metadata (root : Element) : Except JErr Unit :=
  match root.find "properties" with
  | none => .error .metadataElementNotFound
  | some properties_element =>
    if properties_element.children.isEmpty then .error .metadataElementNotFound
    else validate_metadata_props [] (properties_element.iterfind METADATA_PROPERTY_TAG)

/-- The failure-message check inside `_validate_test_case`:
`failure.get("message") is None` — only a missing attribute fails; an
empty string passes. -/
def check_failure_message (test_case : Element) : Except JErr Unit :=
  match test_case.find "failure" with
  | none => .ok ()
  | some failure =>
    match failure.get "message" with
    | none => .error (.failureMessageNotFound (test_case.get "name"))
    | some _ => .ok ()

/-- The error-message check inside `_validate_test_case`:
`not error.get("message")` — a missing attribute or an empty string fails. -/
def check_error_message (test_case : Element) : Except JErr Unit :=
  match test_case.find "error" with
  | none => .ok ()
  | some error_element =>
    match error_element.get "message" with
    | none => .error (.errorMessageNotFound (test_case.get "name"))
    | some v =>
      if v == "" then .error (.errorMessageNotFound (test_case.get "name")) else .ok ()

/-- One iteration of the attribute loop in `_validate_test_case`: the
presence check for this attribute, then (inside the same loop body in the
source) the failure-message and error-message checks. -/
def validate_test_case_step (test_case : Element) (attr : String) :
    Except JErr Unit :=
  if test_case.keys.contains attr then
    match check_failure_message test_case with
    | .error e => .error e
    | .ok () => check_error_message test_case
  else
    .error (.testCaseAttrNotFound attr ((test_case.get "name").getD "Name Not Found"))

/-- `_validate_test_case`. -/
def validate_test_case (test_case : Element) : Except JErr Unit :=
  first_error (validate_test_case_step test_case) REQUIRED_TESTCASE_ATTRIBUTES

/-- `_validate_test_cases`. -/
def validate_test_cases (root : Element) : Except JErr Unit :=
  let cases := root.findall TESTCASE_TAG
  if cases.length == 0 then .error .noTestCasesFound
  else first_error validate_test_case cases

/-- `_validate_junit_xml`: summary, then metadata, then test cases; returns
the root on success. -/
def validate_junit_xml (floatParses : String → Bool) (root : Element) :
    Except JErr Element :=
  match validate_test_summary floatParses root with
  | .error e => .error e
  | .ok () =>
    match validate_test_metadata root with
    | .error e => .error e
    | .ok () =>
      match validate_test_cases root with
      | .error e => .error e
      | .ok () => .ok root

/-- Observations `validate_junit_xml_stream` makes of its input:
`sys.getsizeof(stream)` and the outcome of `ET.fromstring` with DTDs
forbidden (`none` when parsing raises). -/
structure XmlStream where
  size : Nat
  parsed : Option Element

/-- `validate_junit_xml_stream`. -/
def validate_junit_xml_stream (floatParses : String → Bool) (stream : XmlStream) :
    Except JErr Element :=
  if stream.size > MAXIMUM_XML_SIZE then .error .tooLarge
  else
    match stream.parsed with
    | none => .error .unparseable
    | some root => validate_junit_xml floatParses root

/-- Observations `validate_junit_xml_file` makes of its input:
`os.path.exists`, `os.path.isfile`, `os.path.getsize`, and the outcome of
`ET.parse(...).getroot()` with DTDs forbidden (`none` when parsing
raises). -/
structure XmlFile where
  path_exists : Bool
  is_file : Bool
  size : Nat
  parsed : Option Element

/-- `validate_junit_xml_file`. -/
def validate_junit_xml_file (floatParses : String → Bool) (f : XmlFile) :
    Except JErr Element :=
  if !f.path_exists || !f.is_file then .error .fileNotFound
  else if f.size > MAXIMUM_XML_SIZE then .error .tooLarge
  else
    match f.parsed with
    | none => .error .unparseable
    | some root => validate_junit_xml floatParses root

/-- `_parse_test_summary`: copy each required suite attribute verbatim.
The values are `root.get` results (always present on validated input). -/
def parse_test_summary (root : Element) : List (String × Option String) :=
  REQUIRED_TESTSUITE_ATTRIBUTES.map (fun attr => (attr, root.get attr))

/-- The property loop of `_parse_test_metadata`:
`if prop.get("value"):` keeps only properties whose value is a non-empty
string; the dict key is `prop.get("name")` (which Python would allow to be
`None`, hence the `Option String` key type). -/
def parse_metadata_props (acc : List (Option String × String)) :
    List Element → List (Option String × String)
  | [] => acc
  | prop :: rest =>
    match prop.get "value" with
    | none => parse_metadata_props acc rest
    | some v =>
      if v == "" then parse_metadata_props acc rest
      else parse_metadata_props (dict_insert acc (prop.get "name") v) rest

/-- `_parse_test_metadata`.  When the metadata container is absent the
Python code would crash on `None.iterfind` (it is only ever called on
validated trees); that escape is modelled as `none`. -/
def parse_test_metadata (root : Element) : Option (List (Option String × String)) :=
  match root.find METADATA_TAG with
  | none => none
  | some properties_element =>
    some (parse_metadata_props [] (properties_element.iterfind "property"))

/-- Model of Python `str.split(".")` at the character level:
`"".split(".") == [""]`, separators at the ends produce empty pieces. -/
def py_split_dot : List Char → List (List Char)
  | [] => [[]]
  | c :: rest =>
    if c = '.' then [] :: py_split_dot rest
    else
      match py_split_dot rest with
      | [] => [[c]]
      | t :: ts => (c :: t) :: ts

/-- `test_case.get("classname").split(".")[0]` — the feature name.
`py_split_dot` never returns an empty list, so `headD` is exact. -/
def featureOf (classname : String) : String :=
  String.mk ((py_split_dot classname.toList).headD [])

/-- The per-case dict built by `_parse_test_case`: the five required
attributes copied verbatim (`Option` because `get` can return `None`), and
the optional `failure` / `error` entries, present exactly when the
corresponding sub-element exists, holding its `message` attribute. -/
structure CaseRecord where
  attrs : List (String × Option String)
  failure : Option (Option String)
  error : Option (Option String)
deriving DecidableEq, Repr

/-- The record part of `_parse_test_case`. -/
def record_of (test_case : Element) : CaseRecord :=
  { attrs := REQUIRED_TESTCASE_ATTRIBUTES.map (fun attr => (attr, test_case.get attr)),
    failure := (test_case.find "failure").map (fun failure => failure.get "message"),
    error := (test_case.find "error").map (fun e => e.get "message") }

/-- `_parse_test_case`: feature plus record.  When `classname` is absent
the Python code would crash on `None.split` (it is only ever called on
validated trees); that escape is modelled as `none`. -/
def parse_test_case (test_case : Element) : Option (String × CaseRecord) :=
  match test_case.get "classname" with
  | none => none
  | some classname => some (featureOf classname, record_of test_case)

/-- `test_case_results[feature].append(result)` on a `defaultdict(list)`
that preserves insertion order of keys. -/
def buckets_insert (buckets : List (String × List CaseRecord)) (feature : String)
    (result : CaseRecord) : List (String × List CaseRecord) :=
  match buckets with
  | [] => [(feature, [result])]
  | (k, rs) :: rest =>
    if k == feature then (k, rs ++ [result]) :: rest
    else (k, rs) :: buckets_insert rest feature result

/-- The case loop of `_parse_test_cases`, carrying the accumulated feature
buckets. -/
def parse_cases_list (buckets : List (String × List CaseRecord)) :
    List Element → Option (List (String × List CaseRecord))
  | [] => some buckets
  | test_case :: rest =>
    match parse_test_case test_case with
    | none => none
    | some (feature, result) => parse_cases_list (buckets_insert buckets feature result) rest

/-- `_parse_test_cases`. -/
def parse_test_cases (root : Element) : Option (List (String × List CaseRecord)) :=
  parse_cases_list [] (root.findall "testcase")

/-- The feature a test case is grouped under (defined for validated cases,
whose `classname` is always present). -/
def case_feature (test_case : Element) : String :=
  featureOf ((test_case.get "classname").getD "")

/-- First-seen order of a list of keys, with an accumulator of keys already
seen (specification-side helper for bucket key order). -/
def first_seen_from (ks : List String) : List String → List String
  | [] => ks
  | x :: rest => first_seen_from (if x ∈ ks then ks else ks ++ [x]) rest

/-- Deduplicate keeping the first occurrence of each key. -/
def first_seen (l : List String) : List String :=
  first_seen_from [] l

/-- A concrete stand-in for Python `float(...)` acceptance, used to
instantiate `floatParses` in closed witnesses. -/
def sample_float_ok : String → Bool :=
  fun s => !s.isEmpty && s.toList.all (fun c => c.isDigit || c == '.')

/-- A minimal valid test case element. -/
def sample_case : Element :=
  .mk "testcase"
    [("classname", "FeatureA.TestX"), ("file", "tests/a.py"), ("line", "1"),
     ("name", "TestX"), ("time", "0.5")] []

/-- A metadata container with a single `topology` property of value `t0`. -/
def sample_props : Element :=
  .mk "properties" [] [.mk "property" [("name", "topology"), ("value", "t0")] []]

/-- The minimal valid document of the spec scenario. -/
def sample_root : Element :=
  .mk "testsuite"
    [("time", "12.0"), ("tests", "01"), ("skipped", "0"), ("failures", "0"),
     ("errors", "0")] [sample_props, sample_case]

/-! Basic lemmas about the dictionary and iteration helpers. -/

theorem dict_get_isSome_eq_contains {κ α : Type} [BEq κ] [LawfulBEq κ]
    (l : List (κ × α)) (k : κ) :
    (dict_get k l).isSome = (l.map Prod.fst).contains k := by
  induction l with
  | nil => rfl
  | cons hd tl ih =>
    rcases hd with ⟨k', v⟩
    by_cases h : k' = k
    · subst h
      simp [dict_get]
    · simp [dict_get, h, ih, List.contains_cons, Ne.symm h]

theorem Element.get_isSome_eq_keys_contains (e : Element) (k : String) :
    (e.get k).isSome = e.keys.contains k :=
  dict_get_isSome_eq_contains e.attrs k

theorem dict_get_map_self {α : Type} (g : String → α) (l : List String) (a : String)
    (ha : a ∈ l) :
    dict_get a (l.map (fun x => (x, g x))) = some (g a) := by
  induction l with
  | nil => cases ha
  | cons hd tl ih =>
    by_cases h : hd = a
    · subst h
      simp [dict_get]
    · rcases List.mem_cons.mp ha with ha | ha
      · exact absurd ha.symm h
      · simp [dict_get, h, ih ha]

theorem dict_insert_fresh {κ α : Type} [BEq κ] [LawfulBEq κ]
    (m : List (κ × α)) (k : κ) (v : α) (h : k ∉ m.map Prod.fst) :
    dict_insert m k v = m ++ [(k, v)] := by
  induction m with
  | nil => rfl
  | cons hd tl ih =>
    rcases hd with ⟨k', v'⟩
    simp only [List.map_cons, List.mem_cons] at h
    push_neg at h
    simp [dict_insert, Ne.symm h.1, ih h.2]

theorem dict_insert_mem {κ α : Type} [BEq κ] (m : List (κ × α)) (k : κ) (v : α) :
    ∀ kv ∈ dict_insert m k v, kv ∈ m ∨ kv = (k, v) := by
  induction m with
  | nil => simp [dict_insert]
  | cons hd tl ih =>
    rcases hd with ⟨k', v'⟩
    intro kv hkv
    by_cases h : (k' == k)
    · simp only [dict_insert, if_pos h, List.mem_cons] at hkv
      rcases hkv with hkv | hkv
      · exact Or.inr hkv
      · exact Or.inl (List.mem_cons_of_mem _ hkv)
    · simp only [dict_insert, if_neg h, List.mem_cons] at hkv
      rcases hkv with hkv | hkv
      · exact Or.inl (by simp [hkv])
      · rcases ih kv hkv with h' | h'
        · exact Or.inl (List.mem_cons_of_mem _ h')
        · exact Or.inr h'

theorem first_error_ok_iff {α ε : Type} (f : α → Except ε Unit) (l : List α) :
    first_error f l = .ok () ↔ ∀ x ∈ l, f x = .ok () := by
  induction l with
  | nil => simp [first_error]
  | cons hd tl ih =>
    cases h : f hd with
    | error e => simp [first_error, h]
    | ok u =>
      cases u
      simp [first_error, h, ih]

theorem first_error_error {α ε : Type} (f : α → Except ε Unit) (l : List α) (e : ε)
    (h : first_error f l = .error e) : ∃ x ∈ l, f x = .error e := by
  induction l with
  | nil => simp [first_error] at h
  | cons hd tl ih =>
    cases hfh : f hd with
    | error e' =>
      simp only [first_error, hfh, Except.error.injEq] at h
      exact ⟨hd, List.mem_cons_self hd tl, by rw [hfh, h]⟩
    | ok u =>
      cases u
      simp only [first_error, hfh] at h
      obtain ⟨x, hx, hfx⟩ := ih h
      exact ⟨x, List.mem_cons_of_mem _ hx, hfx⟩

theorem first_error_append {α ε : Type} (f : α → Except ε Unit) (l1 l2 : List α)
    (h : ∀ x ∈ l1, f x = .ok ()) :
    first_error f (l1 ++ l2) = first_error f l2 := by
  induction l1 with
  | nil => rfl
  | cons hd tl ih =>
    have hhd := h hd (List.mem_cons_self hd tl)
    simp only [List.cons_append, first_error, hhd]
    exact ih (fun x hx => h x (List.mem_cons_of_mem _ hx))

/-! Lemmas about the Python split model. -/

theorem py_split_dot_ne_nil (l : List Char) : py_split_dot l ≠ [] := by
  induction l with
  | nil => simp [py_split_dot]
  | cons c rest ih =>
    by_cases hc : c = '.'
    · simp [py_split_dot, hc]
    · cases hrec : py_split_dot rest <;> simp [py_split_dot, hc, hrec]

theorem py_split_dot_head (l : List Char) :
    (py_split_dot l).headD [] = l.takeWhile (fun c => c != '.') := by
  induction l with
  | nil => rfl
  | cons c rest ih =>
    by_cases hc : c = '.'
    · simp [py_split_dot, hc, List.takeWhile_cons]
    · cases hrec : py_split_dot rest with
      | nil => exact absurd hrec (py_split_dot_ne_nil rest)
      | cons t ts =>
        rw [hrec] at ih
        simp only [List.headD_cons] at ih
        simp [py_split_dot, hc, hrec, List.takeWhile_cons, ih]

/-- `featureOf` is the prefix of the classname before the first dot
(the whole classname when there is no dot). -/
theorem featureOf_takeWhile (classname : String) :
    featureOf classname = String.mk (classname.toList.takeWhile (fun c => c != '.')) := by
  unfold featureOf
  rw [py_split_dot_head]

/-! Lemmas about the summary guard. -/

theorem check_suite_attr_ok_iff (fp : String → Bool) (root : Element) (a : String) :
    check_suite_attr fp root a = .ok () ↔ ∃ v, root.get a = some v ∧ fp v = true := by
  cases h : root.get a with
  | none => simp [check_suite_attr, h]
  | some v =>
    by_cases hf : fp v
    · simp [check_suite_attr, h, hf]
    · simp [check_suite_attr, h, hf]

theorem check_suite_attr_error (fp : String → Bool) (root : Element) (a : String)
    (e : JErr) (h : check_suite_attr fp root a = .error e) :
    (e = .suiteAttrNotFound a ∧ root.get a = none) ∨
      ∃ v, e = .suiteAttrNotNumeric a v ∧ root.get a = some v ∧ fp v = false := by
  cases hg : root.get a with
  | none =>
    simp only [check_suite_attr, hg, Except.error.injEq] at h
    exact Or.inl ⟨h.symm, rfl⟩
  | some v =>
    by_cases hf : fp v
    · simp [check_suite_attr, hg, hf] at h
    · simp only [check_suite_attr, hg, hf, Bool.false_eq_true, if_false,
        Except.error.injEq] at h
      exact Or.inr ⟨v, h.symm, rfl, by simp [hf]⟩

theorem validate_test_summary_ok_iff (fp : String → Bool) (root : Element)
    (ht : root.tag = TESTSUITE_TAG) :
    validate_test_summary fp root = .ok () ↔
      ∀ a ∈ REQUIRED_TESTSUITE_ATTRIBUTES, ∃ v, root.get a = some v ∧ fp v = true := by
  rw [validate_test_summary, if_pos (by simp [ht]), first_error_ok_iff]
  constructor
  · intro h a ha
    exact (check_suite_attr_ok_iff fp root a).mp (h a ha)
  · intro h a ha
    exact (check_suite_attr_ok_iff fp root a).mpr (h a ha)

/-- A document whose metadata container is present directly under root but
has zero children. -/
def empty_props_root : Element :=
  .mk "testsuite"
    [("time", "12.0"), ("tests", "1"), ("skipped", "0"), ("failures", "0"),
     ("errors", "0")]
    [.mk "properties" [] [], sample_case]

/-- A document with no metadata container at all. -/
def no_props_root : Element :=
  .mk "testsuite"
    [("time", "12.0"), ("tests", "1"), ("skipped", "0"), ("failures", "0"),
     ("errors", "0")]
    [sample_case]

/-- C1: the claim says a present-but-childless metadata container passes
the presence guard.  The code instead guards with `if not
properties_element:`, and ElementTree elements with no children are falsy,
so the present-but-empty container of `empty_props_root` is rejected with
the missing-container reason — the exact foot-gun the spec says is
avoided.  The absent-container half of the claim does hold: `find`
returning nothing always yields the missing-container failure. -/
theorem claim_C1_metadata_presence :
    (empty_props_root.find METADATA_TAG).isSome = true ∧
    validate_test_metadata empty_props_root = .error .metadataElementNotFound ∧
    (∀ root : Element, root.find METADATA_TAG = none →
      validate_test_metadata root = .error .metadataElementNotFound) := by
  refine ⟨rfl, rfl, ?_⟩
  intro root h
  have h' : root.find "properties" = none := h
  simp [validate_test_metadata, h']

/-- Witness for C1: the third conjunct applied to a concrete document with
no metadata container. -/
theorem claim_C1_metadata_presence_witness :
    validate_test_metadata no_props_root = .error .metadataElementNotFound :=
  claim_C1_metadata_presence.2.2 no_props_root rfl

/-- C3: input larger than the 100000000 ceiling is rejected as too large
independently of the parse outcome (the quantification over `parsed` is
the embedding of "before any parse attempt"), for both entry points; for
the file entry point the existence/file-type check comes first. -/
theorem claim_C3_size_guard :
    (∀ (fp : String → Bool) (size : Nat) (parsed : Option Element),
      size > MAXIMUM_XML_SIZE →
      validate_junit_xml_stream fp ⟨size, parsed⟩ = .error .tooLarge) ∧
    (∀ (fp : String → Bool) (f : XmlFile),
      f.path_exists = false ∨ f.is_file = false →
      validate_junit_xml_file fp f = .error .fileNotFound) ∧
    (∀ (fp : String → Bool) (f : XmlFile),
      f.path_exists = true → f.is_file = true → f.size > MAXIMUM_XML_SIZE →
      validate_junit_xml_file fp f = .error .tooLarge) := by
  refine ⟨?_, ?_, ?_⟩
  · intro fp size parsed h
    simp [validate_junit_xml_stream, h]
  · intro fp f h
    rcases h with h | h <;> simp [validate_junit_xml_file, h]
  · intro fp f h1 h2 h3
    simp [validate_junit_xml_file, h1, h2, h3]

/-- Witness for C3 at concrete oversized / missing inputs. -/
theorem claim_C3_size_guard_witness :
    validate_junit_xml_stream sample_float_ok ⟨100000001, some sample_root⟩ =
      .error .tooLarge ∧
    validate_junit_xml_file sample_float_ok ⟨false, true, 5, some sample_root⟩ =
      .error .fileNotFound ∧
    validate_junit_xml_file sample_float_ok ⟨true, true, 100000001, some sample_root⟩ =
      .error .tooLarge :=
  ⟨claim_C3_size_guard.1 sample_float_ok 100000001 (some sample_root) (by decide),
   claim_C3_size_guard.2.1 sample_float_ok ⟨false, true, 5, some sample_root⟩
     (Or.inl rfl),
   claim_C3_size_guard.2.2 sample_float_ok ⟨true, true, 100000001, some sample_root⟩
     rfl rfl (by decide)⟩

/-- C7: on a root with the suite tag, the summary guard passes exactly
when each of the 5 required suite attributes is present and accepted by
the float parser; when any attribute is missing or non-numeric the guard
fails; and any failure it reports names an attribute that is genuinely
missing or non-numeric (together with the offending raw value). -/
theorem claim_C7_suite_guard (fp : String → Bool) (root : Element)
    (ht : root.tag = TESTSUITE_TAG) :
    (validate_test_summary fp root = .ok () ↔
      ∀ a ∈ REQUIRED_TESTSUITE_ATTRIBUTES, ∃ v, root.get a = some v ∧ fp v = true) ∧
    (∀ a ∈ REQUIRED_TESTSUITE_ATTRIBUTES,
      (root.get a = none ∨ ∃ v, root.get a = some v ∧ fp v = false) →
      validate_test_summary fp root ≠ .ok ()) ∧
    (∀ e, validate_test_summary fp root = .error e →
      ∃ a ∈ REQUIRED_TESTSUITE_ATTRIBUTES,
        (e = .suiteAttrNotFound a ∧ root.get a = none) ∨
        ∃ v, e = .suiteAttrNotNumeric a v ∧ root.get a = some v ∧ fp v = false) := by
  refine ⟨validate_test_summary_ok_iff fp root ht, ?_, ?_⟩
  · intro a ha hbad hok
    obtain ⟨v, hv, hfv⟩ := (validate_test_summary_ok_iff fp root ht).mp hok a ha
    rcases hbad with hnone | ⟨w, hw, hfw⟩
    · rw [hv] at hnone
      cases hnone
    · rw [hv] at hw
      cases hw
      rw [hfv] at hfw
      cases hfw
  · intro e he
    rw [validate_test_summary, if_pos (by simp [ht])] at he
    obtain ⟨a, ha, hae⟩ := first_error_error _ _ _ he
    exact ⟨a, ha, check_suite_attr_error fp root a e hae⟩

/-- Witness for C7: the minimal valid document passes the summary guard,
and the forward direction of the characterization recovers the presence
and numericity of all 5 attributes. -/
theorem claim_C7_suite_guard_witness :
    ∃ v, sample_root.get "time" = some v ∧ sample_float_ok v = true :=
  (claim_C7_suite_guard sample_float_ok sample_root rfl).1.mp rfl "time" (by decide)

/-- C9: the transformed summary has exactly the 5 required suite attribute
names as keys, in particular each key looks up to the raw attribute string
of the validated root, copied verbatim with no coercion. -/
theorem claim_C9_summary_verbatim (fp : String → Bool) (root : Element)
    (h : validate_test_summary fp root = .ok ()) :
    (parse_test_summary root).map Prod.fst = REQUIRED_TESTSUITE_ATTRIBUTES ∧
    ∀ a ∈ REQUIRED_TESTSUITE_ATTRIBUTES,
      ∃ v, root.get a = some v ∧
        dict_get a (parse_test_summary root) = some (some v) := by
  constructor
  · rfl
  · intro a ha
    have htag : root.tag = TESTSUITE_TAG := by
      by_contra hne
      rw [validate_test_summary, if_neg (by simpa using hne)] at h
      simp at h
    obtain ⟨v, hv, _⟩ := (validate_test_summary_ok_iff fp root htag).mp h a ha
    refine ⟨v, hv, ?_⟩
    rw [parse_test_summary, dict_get_map_self _ _ _ ha, hv]

/-- Witness for C9 at the minimal valid document: the `tests` attribute
keeps its leading zero. -/
theorem claim_C9_summary_verbatim_witness :
    dict_get "tests" (parse_test_summary sample_root) = some (some "01") := by
  obtain ⟨v, hv, hl⟩ :=
    (claim_C9_summary_verbatim sample_float_ok sample_root rfl).2 "tests"
      (by decide)
  have hv' : v = "01" := by
    have : some v = some "01" := hv.symm.trans rfl
    exact (Option.some.injEq v "01" ▸ this : v = "01")
  rw [hl, hv']

/-! Lemmas about the metadata guard and the metadata transformer. -/

/-- What validation establishes for a single metadata property: a present
non-empty name from the closed property set and a present (possibly
empty) value. -/
def good_prop (p : Element) : Prop :=
  ∃ n v, p.get "name" = some n ∧ n ≠ "" ∧ n ∈ REQUIRED_METADATA_PROPERTIES ∧
    p.get "value" = some v

/-- The name of a property element (defined for validated properties,
whose name is always present). -/
def prop_name (p : Element) : String :=
  (p.get "name").getD ""

theorem validate_metadata_props_ok (props : List Element) :
    ∀ seen, validate_metadata_props seen props = .ok () →
      (∀ p ∈ props, good_prop p) ∧ (props.map prop_name).Nodup ∧
        ∀ n ∈ props.map prop_name, n ∉ seen := by
  induction props with
  | nil => intro seen _; simp
  | cons p rest ih =>
    intro seen h
    cases hn : p.get "name" with
    | none => simp [validate_metadata_props, hn] at h
    | some n =>
      by_cases hne : n = ""
      · simp [validate_metadata_props, hn, hne] at h
      · by_cases hmem : n ∈ REQUIRED_METADATA_PROPERTIES
        · by_cases hdup : n ∈ seen
          · simp [validate_metadata_props, hn, hne, hmem, hdup] at h
          · cases hv : p.get "value" with
            | none => simp [validate_metadata_props, hn, hne, hmem, hdup, hv] at h
            | some v =>
              have hrec : validate_metadata_props (n :: seen) rest = .ok () := by
                simpa [validate_metadata_props, hn, hne, hmem, hdup, hv] using h
              obtain ⟨hgood, hnodup, hfresh⟩ := ih (n :: seen) hrec
              have hpn : prop_name p = n := by simp [prop_name, hn]
              refine ⟨?_, ?_, ?_⟩
              · intro q hq
                rcases List.mem_cons.mp hq with hq | hq
                · subst hq
                  exact ⟨n, v, hn, hne, hmem, hv⟩
                · exact hgood q hq
              · simp only [List.map_cons, List.nodup_cons, hpn]
                refine ⟨fun hmem' => ?_, hnodup⟩
                exact (hfresh n hmem') (List.mem_cons_self n seen)
              · simp only [List.map_cons, List.mem_cons, hpn]
                rintro m (rfl | hm)
                · intro hms
                  exact hdup hms
                · intro hms
                  exact (hfresh m hm) (List.mem_cons_of_mem _ hms)
        · simp [validate_metadata_props, hn, hne, hmem] at h

theorem validate_metadata_props_append (pre : List Element) :
    ∀ seen l, (∀ p ∈ pre, good_prop p) → (pre.map prop_name).Nodup →
      (∀ n ∈ pre.map prop_name, n ∉ seen) →
      validate_metadata_props seen (pre ++ l) =
        validate_metadata_props ((pre.map prop_name).reverse ++ seen) l := by
  induction pre with
  | nil => intro seen l _ _ _; rfl
  | cons p rest ih =>
    intro seen l hgood hnodup hfresh
    obtain ⟨n, v, hn, hne, hmem, hv⟩ := hgood p (List.mem_cons_self p rest)
    have hpn : prop_name p = n := by simp [prop_name, hn]
    have hnotseen : n ∉ seen := fun hc => hfresh n (by simp [hpn]) hc
    have hstep :
        validate_metadata_props seen ((p :: rest) ++ l) =
          validate_metadata_props (n :: seen) (rest ++ l) := by
      simp [validate_metadata_props, hn, hne, hmem, hnotseen, hv]
    rw [hstep]
    have hnodup' : (rest.map prop_name).Nodup := by
      simpa [hpn] using hnodup.of_cons
    have hheadfresh : n ∉ rest.map prop_name := by
      have := hnodup
      simp only [List.map_cons, List.nodup_cons, hpn] at this
      exact this.1
    have hfresh' : ∀ m ∈ rest.map prop_name, m ∉ n :: seen := by
      intro m hm
      simp only [List.mem_cons]
      rintro (rfl | hms)
      · exact hheadfresh hm
      · exact hfresh m (by simp [hm]) hms
    rw [ih (n :: seen) l (fun q hq => hgood q (List.mem_cons_of_mem _ hq)) hnodup' hfresh']
    simp [hpn, List.append_assoc]

/-- Python truthiness of `prop.get("value")`. -/
def value_truthy (p : Element) : Bool :=
  match p.get "value" with
  | none => false
  | some v => !(v == "")

/-- The dict entry `_parse_test_metadata` builds for a kept property. -/
def metadata_entry (p : Element) : Option String × String :=
  (p.get "name", (p.get "value").getD "")

theorem parse_metadata_props_eq (props : List Element) :
    ∀ acc, (props.map (fun p => p.get "name")).Nodup →
      (∀ p ∈ props, p.get "name" ∉ acc.map Prod.fst) →
      parse_metadata_props acc props =
        acc ++ (props.filter value_truthy).map metadata_entry := by
  induction props with
  | nil => intro acc _ _; simp [parse_metadata_props]
  | cons p rest ih =>
    intro acc hnodup hfresh
    have hnodup' : (rest.map (fun p => p.get "name")).Nodup := by
      simpa using hnodup.of_cons
    cases hv : p.get "value" with
    | none =>
      have ht : value_truthy p = false := by simp [value_truthy, hv]
      rw [show parse_metadata_props acc (p :: rest) = parse_metadata_props acc rest by
          simp [parse_metadata_props, hv]]
      rw [ih acc hnodup' (fun q hq => hfresh q (List.mem_cons_of_mem _ hq))]
      simp [List.filter_cons, ht]
    | some v =>
      by_cases hve : v = ""
      · have ht : value_truthy p = false := by simp [value_truthy, hv, hve]
        rw [show parse_metadata_props acc (p :: rest) = parse_metadata_props acc rest by
            simp [parse_metadata_props, hv, hve]]
        rw [ih acc hnodup' (fun q hq => hfresh q (List.mem_cons_of_mem _ hq))]
        simp [List.filter_cons, ht]
      · have ht : value_truthy p = true := by simp [value_truthy, hv, hve]
        have hins :
            dict_insert acc (p.get "name") v = acc ++ [metadata_entry p] := by
          rw [dict_insert_fresh acc _ v (hfresh p (List.mem_cons_self p rest))]
          simp [metadata_entry, hv]
        have hstep :
            parse_metadata_props acc (p :: rest) =
              parse_metadata_props (acc ++ [metadata_entry p]) rest := by
          simp [parse_metadata_props, hv, hve, hins]
        rw [hstep]
        have hfresh' :
            ∀ q ∈ rest, q.get "name" ∉ (acc ++ [metadata_entry p]).map Prod.fst := by
          intro q hq
          simp only [List.map_append, List.mem_append]
          rintro (hqa | hqp)
          · exact hfresh q (List.mem_cons_of_mem _ hq) hqa
          · have hqp' : q.get "name" = p.get "name" := by
              simpa [metadata_entry] using hqp
            have : p.get "name" ∉ rest.map (fun r => r.get "name") := by
              have := hnodup
              simp only [List.map_cons, List.nodup_cons] at this
              exact this.1
            exact this (by simpa [hqp'] using List.mem_map_of_mem (fun r => r.get "name") hq)
        rw [ih (acc ++ [metadata_entry p]) hnodup' hfresh']
        simp [List.filter_cons, ht, List.append_assoc]

theorem parse_metadata_props_values (props : List Element) :
    ∀ acc, (∀ kv ∈ acc, kv.2 ≠ "") →
      ∀ kv ∈ parse_metadata_props acc props, kv.2 ≠ "" := by
  induction props with
  | nil => intro acc hacc; simpa [parse_metadata_props] using hacc
  | cons p rest ih =>
    intro acc hacc
    cases hv : p.get "value" with
    | none =>
      rw [show parse_metadata_props acc (p :: rest) = parse_metadata_props acc rest by
          simp [parse_metadata_props, hv]]
      exact ih acc hacc
    | some v =>
      by_cases hve : v = ""
      · rw [show parse_metadata_props acc (p :: rest) = parse_metadata_props acc rest by
            simp [parse_metadata_props, hv, hve]]
        exact ih acc hacc
      · rw [show parse_metadata_props acc (p :: rest) =
              parse_metadata_props (dict_insert acc (p.get "name") v) rest by
            simp [parse_metadata_props, hv, hve]]
        refine ih _ ?_
        intro kv hkv
        rcases dict_insert_mem acc _ v kv hkv with h | h
        · exact hacc kv h
        · rw [h]
          exact hve

theorem validate_junit_xml_ok (fp : String → Bool) (root r : Element)
    (h : validate_junit_xml fp root = .ok r) :
    validate_test_summary fp root = .ok () ∧ validate_test_metadata root = .ok () ∧
      validate_test_cases root = .ok () ∧ r = root := by
  cases h1 : validate_test_summary fp root with
  | error e => simp [validate_junit_xml, h1] at h
  | ok u =>
    cases u
    cases h2 : validate_test_metadata root with
    | error e => simp [validate_junit_xml, h1, h2] at h
    | ok u =>
      cases u
      cases h3 : validate_test_cases root with
      | error e => simp [validate_junit_xml, h1, h2, h3] at h
      | ok u =>
        cases u
        refine ⟨rfl, rfl, rfl, ?_⟩
        simpa [validate_junit_xml, h1, h2, h3] using h.symm

theorem validate_test_metadata_ok (root : Element)
    (h : validate_test_metadata root = .ok ()) :
    ∃ pe, root.find METADATA_TAG = some pe ∧ pe.children.isEmpty = false ∧
      validate_metadata_props [] (pe.iterfind METADATA_PROPERTY_TAG) = .ok () := by
  cases hf : root.find "properties" with
  | none => simp [validate_test_metadata, hf] at h
  | some pe =>
    by_cases hc : pe.children.isEmpty
    · simp [validate_test_metadata, hf, hc] at h
    · refine ⟨pe, hf, by simpa using hc, ?_⟩
      simpa [validate_test_metadata, hf, hc] using h

theorem children_not_empty_of_iterfind (pe : Element) (t : String)
    (h : pe.iterfind t ≠ []) : pe.children.isEmpty = false := by
  cases hc : pe.children with
  | nil => exact absurd (by simp [Element.iterfind, Element.findall, hc]) h
  | cons a l => simp [hc]

theorem validate_metadata_props_bad_name (props : List Element)
    (seen : List String) (p : Element) (n : String) (hp : p ∈ props)
    (hn : p.get "name" = some n) (hnm : n ∉ REQUIRED_METADATA_PROPERTIES) :
    validate_metadata_props seen props ≠ .ok () := by
  intro h
  obtain ⟨hgood, _, _⟩ := validate_metadata_props_ok props seen h
  obtain ⟨n', v, hn', _, hmem, _⟩ := hgood p hp
  rw [hn] at hn'
  injection hn' with hnn
  exact hnm (hnn ▸ hmem)

/-- C10: on a tree whose metadata guard passed, the transformed metadata
map has duplicate-free keys drawn from the closed 7-name property set, and
each entry holds the non-empty value of the unique property of that name
in the document. -/
theorem claim_C10_metadata_invariant (root : Element)
    (h : validate_test_metadata root = .ok ()) :
    ∃ pe m, root.find METADATA_TAG = some pe ∧ parse_test_metadata root = some m ∧
      (m.map Prod.fst).Nodup ∧
      (∀ k ∈ m.map Prod.fst, ∃ n, k = some n ∧ n ∈ REQUIRED_METADATA_PROPERTIES) ∧
      (∀ n v, (some n, v) ∈ m → v ≠ "" ∧
        ∃ p ∈ pe.iterfind METADATA_PROPERTY_TAG,
          p.get "name" = some n ∧ p.get "value" = some v ∧
          ∀ q ∈ pe.iterfind METADATA_PROPERTY_TAG, q.get "name" = some n → q = p) := by
  obtain ⟨pe, hf, hne, hmd⟩ := validate_test_metadata_ok root h
  obtain ⟨hgood, hnodup, _⟩ :=
    validate_metadata_props_ok (pe.iterfind METADATA_PROPERTY_TAG) [] hmd
  have hnames : (pe.iterfind METADATA_PROPERTY_TAG).map (fun p => p.get "name") =
      (pe.iterfind METADATA_PROPERTY_TAG).map (fun p => some (prop_name p)) := by
    refine List.map_congr_left ?_
    intro q hq
    obtain ⟨n', v', hn', _, _, _⟩ := hgood q hq
    rw [hn']
    simp [prop_name, hn']
  have hnodup' :
      ((pe.iterfind METADATA_PROPERTY_TAG).map (fun p => p.get "name")).Nodup := by
    rw [hnames, show (fun p => some (prop_name p)) = Option.some ∘ prop_name from rfl,
      ← List.map_map]
    exact hnodup.map (Option.some_injective String)
  have hparse : parse_test_metadata root =
      some (parse_metadata_props [] (pe.iterfind METADATA_PROPERTY_TAG)) := by
    have hf' : root.find METADATA_TAG = some pe := hf
    simp only [parse_test_metadata, hf']
    rfl
  have heq : parse_metadata_props [] (pe.iterfind METADATA_PROPERTY_TAG) =
      ((pe.iterfind METADATA_PROPERTY_TAG).filter value_truthy).map metadata_entry := by
    simpa using
      parse_metadata_props_eq (pe.iterfind METADATA_PROPERTY_TAG) [] hnodup' (by simp)
  refine ⟨pe, parse_metadata_props [] (pe.iterfind METADATA_PROPERTY_TAG), hf,
    hparse, ?_, ?_, ?_⟩
  · rw [heq]
    have hkeys :
        (((pe.iterfind METADATA_PROPERTY_TAG).filter value_truthy).map
            metadata_entry).map Prod.fst =
          ((pe.iterfind METADATA_PROPERTY_TAG).filter value_truthy).map
            (fun p => p.get "name") := by
      simp [List.map_map, metadata_entry, Function.comp]
    rw [hkeys]
    exact List.Sublist.nodup
      (List.Sublist.map (fun p : Element => p.get "name")
        (List.filter_sublist (pe.iterfind METADATA_PROPERTY_TAG))) hnodup'
  · rw [heq]
    intro k hk
    simp only [List.map_map] at hk
    obtain ⟨q, hq, hqk⟩ := List.mem_map.mp hk
    have hq' := List.mem_of_mem_filter hq
    obtain ⟨n', v', hn', _, hmem', _⟩ := hgood q hq'
    refine ⟨n', ?_, hmem'⟩
    rw [← hqk]
    simp [metadata_entry, hn']
  · rw [heq]
    intro n v hnv
    obtain ⟨q, hq, hqe⟩ := List.mem_map.mp hnv
    have hq' := List.mem_of_mem_filter hq
    obtain ⟨n0, v0, hn0, _, _, hv0⟩ := hgood q hq'
    have hqn : q.get "name" = some n := by
      have := congrArg Prod.fst hqe
      simpa [metadata_entry] using this
    have hqv : q.get "value" = some v := by
      have := congrArg Prod.snd hqe
      simp only [metadata_entry] at this
      rw [hv0] at this ⊢
      simp only [Option.getD_some] at this
      rw [this]
    have htruthy : value_truthy q = true := List.of_mem_filter hq
    have hvne : v ≠ "" := by
      rw [value_truthy, hqv] at htruthy
      simpa using htruthy
    refine ⟨hvne, q, hq', hqn, hqv, ?_⟩
    intro q' hq'' hq'n
    exact List.inj_on_of_nodup_map hnodup' hq'' hq' (by rw [hq'n, hqn])

/-- Witness for C10: the theorem instantiated at the minimal valid
document. -/
theorem claim_C10_metadata_invariant_witness :
    ∃ pe m, sample_root.find METADATA_TAG = some pe ∧
      parse_test_metadata sample_root = some m ∧
      (m.map Prod.fst).Nodup ∧
      (∀ k ∈ m.map Prod.fst, ∃ n, k = some n ∧ n ∈ REQUIRED_METADATA_PROPERTIES) ∧
      (∀ n v, (some n, v) ∈ m → v ≠ "" ∧
        ∃ p ∈ pe.iterfind METADATA_PROPERTY_TAG,
          p.get "name" = some n ∧ p.get "value" = some v ∧
          ∀ q ∈ pe.iterfind METADATA_PROPERTY_TAG, q.get "name" = some n → q = p) :=
  claim_C10_metadata_invariant sample_root rfl

/-- A valid document whose `topology` metadata property has the empty
string as value. -/
def topo_empty_root : Element :=
  .mk "testsuite"
    [("time", "12.0"), ("tests", "1"), ("skipped", "0"), ("failures", "0"),
     ("errors", "0")]
    [.mk "properties" [] [.mk "property" [("name", "topology"), ("value", "")] []],
     sample_case]

/-- C5: validation accepts a metadata property whose value is the empty
string (only a missing value is rejected), while the transformer omits
every property whose value is empty or absent — in particular the
document with `topology=""` validates but the transformed metadata map
has no entry at all, and in general every transformed entry carries a
non-empty value. -/
theorem claim_C5_lenient_omission :
    (∀ (seen : List String) (p : Element) (rest : List Element) (n : String),
      p.get "name" = some n → n ≠ "" → n ∈ REQUIRED_METADATA_PROPERTIES →
      n ∉ seen → p.get "value" = some "" →
      validate_metadata_props seen (p :: rest) =
        validate_metadata_props (n :: seen) rest) ∧
    (∀ (seen : List String) (p : Element) (rest : List Element) (n : String),
      p.get "name" = some n → n ≠ "" → n ∈ REQUIRED_METADATA_PROPERTIES →
      n ∉ seen → p.get "value" = none →
      validate_metadata_props seen (p :: rest) =
        .error (.metadataValueNotFound n)) ∧
    validate_junit_xml sample_float_ok topo_empty_root = .ok topo_empty_root ∧
    parse_test_metadata topo_empty_root = some [] ∧
    (∀ (root : Element) (m : List (Option String × String)),
      parse_test_metadata root = some m → ∀ kv ∈ m, kv.2 ≠ "") := by
  refine ⟨?_, ?_, rfl, rfl, ?_⟩
  · intro seen p rest n hn hne hmem hseen hv
    simp [validate_metadata_props, hn, hne, hmem, hseen, hv]
  · intro seen p rest n hn hne hmem hseen hv
    simp [validate_metadata_props, hn, hne, hmem, hseen, hv]
  · intro root m hm kv hkv
    cases hf : root.find METADATA_TAG with
    | none => simp [parse_test_metadata, hf] at hm
    | some pe =>
      have hm' : parse_metadata_props [] (pe.iterfind "property") = m := by
        simpa [parse_test_metadata, hf] using hm
      exact parse_metadata_props_values (pe.iterfind "property") [] (by simp) kv
        (hm' ▸ hkv)

/-- Witness for C5: the hypothesis-bearing conjuncts applied at concrete
inputs — the `topology=""` property is accepted by the per-property scan,
and the transformed map of the concrete document (which is empty) has no
empty-valued entry. -/
theorem claim_C5_lenient_omission_witness :
    validate_metadata_props []
        [.mk "property" [("name", "topology"), ("value", "")] []] =
      validate_metadata_props ["topology"] [] ∧
    ∀ kv ∈ ([] : List (Option String × String)), kv.2 ≠ "" :=
  ⟨claim_C5_lenient_omission.1 []
      (.mk "property" [("name", "topology"), ("value", "")] []) [] "topology"
      rfl (by decide) (by decide) (by decide) rfl,
   claim_C5_lenient_omission.2.2.2.2 topo_empty_root []
     claim_C5_lenient_omission.2.2.2.1⟩

theorem validate_metadata_props_dup_step (seen : List String) (p : Element)
    (rest : List Element) (n : String) (hn : p.get "name" = some n) (hne : n ≠ "")
    (hmem : n ∈ REQUIRED_METADATA_PROPERTIES) (hseen : n ∈ seen) :
    validate_metadata_props seen (p :: rest) = .error (.duplicateMetadata n) := by
  simp [validate_metadata_props, hn, hne, hmem, hseen]

/-- A document containing a metadata property with a name outside the
closed set. -/
def unknown_prop_root : Element :=
  .mk "testsuite"
    [("time", "12.0"), ("tests", "1"), ("skipped", "0"), ("failures", "0"),
     ("errors", "0")]
    [.mk "properties" [] [.mk "property" [("name", "bogus"), ("value", "x")] []],
     sample_case]

/-- A document containing two metadata properties named `topology`. -/
def dup_prop_root : Element :=
  .mk "testsuite"
    [("time", "12.0"), ("tests", "1"), ("skipped", "0"), ("failures", "0"),
     ("errors", "0")]
    [.mk "properties" []
      [.mk "property" [("name", "topology"), ("value", "t0")] [],
       .mk "property" [("name", "topology"), ("value", "t1")] []],
     sample_case]

/-- C6: a document containing a metadata property named outside the closed
7-name set never validates; and when the properties are scanned in
document order, the first property whose name repeats an earlier
(individually valid) one triggers the duplicate failure naming that
name. -/
theorem claim_C6_metadata_names :
    (∀ (fp : String → Bool) (root pe p r : Element) (n : String),
      root.find METADATA_TAG = some pe →
      p ∈ pe.iterfind METADATA_PROPERTY_TAG →
      p.get "name" = some n → n ∉ REQUIRED_METADATA_PROPERTIES →
      validate_junit_xml fp root ≠ .ok r) ∧
    (∀ (root pe p : Element) (pre rest : List Element) (n : String),
      root.find METADATA_TAG = some pe →
      pe.iterfind METADATA_PROPERTY_TAG = pre ++ p :: rest →
      (∀ q ∈ pre, good_prop q) → (pre.map prop_name).Nodup →
      p.get "name" = some n → n ∈ pre.map prop_name →
      validate_test_metadata root = .error (.duplicateMetadata n)) := by
  constructor
  · intro fp root pe p r n hf hp hn hnm hok
    obtain ⟨_, hmeta, _, _⟩ := validate_junit_xml_ok fp root r hok
    obtain ⟨pe', hf', _, hmd⟩ := validate_test_metadata_ok root hmeta
    rw [hf] at hf'
    injection hf' with hpe
    subst hpe
    exact validate_metadata_props_bad_name _ [] p n hp hn hnm hmd
  · intro root pe p pre rest n hf hprops hgood hnodup hn hdup
    obtain ⟨q, hq, hqn⟩ := List.mem_map.mp hdup
    obtain ⟨n0, v0, hn0, hne0, hmem0, _⟩ := hgood q hq
    have hqn' : prop_name q = n0 := by simp [prop_name, hn0]
    have hnn0 : n = n0 := by rw [← hqn, hqn']
    subst hnn0
    have hne : n ≠ "" := hne0
    have hchildren : pe.children.isEmpty = false := by
      refine children_not_empty_of_iterfind pe METADATA_PROPERTY_TAG ?_
      rw [hprops]
      simp
    have hf' : root.find "properties" = some pe := hf
    have hunfold : validate_test_metadata root =
        validate_metadata_props [] (pe.iterfind METADATA_PROPERTY_TAG) := by
      simp [validate_test_metadata, hf', hchildren]
    rw [hunfold, hprops,
      validate_metadata_props_append pre [] (p :: rest) hgood hnodup (by simp)]
    exact validate_metadata_props_dup_step _ p rest n hn hne hmem0 (by simp [hdup])

/-- Witness for C6: a concrete document with an unknown `bogus` property
never validates, and a concrete document with two `topology` properties
fails with the duplicate reason on the second occurrence. -/
theorem claim_C6_metadata_names_witness :
    validate_junit_xml sample_float_ok unknown_prop_root ≠ .ok unknown_prop_root ∧
    validate_test_metadata dup_prop_root = .error (.duplicateMetadata "topology") := by
  constructor
  · exact claim_C6_metadata_names.1 sample_float_ok unknown_prop_root
      (.mk "properties" [] [.mk "property" [("name", "bogus"), ("value", "x")] []])
      (.mk "property" [("name", "bogus"), ("value", "x")] [])
      unknown_prop_root "bogus" rfl
      (show _ ∈ [Element.mk "property" [("name", "bogus"), ("value", "x")] []] from
        List.mem_singleton.mpr rfl)
      rfl (by decide)
  · refine claim_C6_metadata_names.2 dup_prop_root
      (.mk "properties" []
        [.mk "property" [("name", "topology"), ("value", "t0")] [],
         .mk "property" [("name", "topology"), ("value", "t1")] []])
      (.mk "property" [("name", "topology"), ("value", "t1")] [])
      [.mk "property" [("name", "topology"), ("value", "t0")] []] [] "topology"
      rfl rfl ?_ (by simp) rfl ?_
    · intro q hq
      rw [List.mem_singleton.mp hq]
      exact ⟨"topology", "t0", rfl, by decide, by decide, rfl⟩
    · simp [prop_name, Element.get, dict_get]

/-! Lemmas about the test-case guard. -/

theorem check_failure_message_ok_iff (tc : Element) :
    check_failure_message tc = .ok () ↔
      ∀ f, tc.find "failure" = some f → (f.get "message").isSome = true := by
  cases hf : tc.find "failure" with
  | none => simp [check_failure_message, hf]
  | some f =>
    cases hm : f.get "message" with
    | none => simp [check_failure_message, hf, hm]
    | some v => simp [check_failure_message, hf, hm]

theorem check_error_message_ok_iff (tc : Element) :
    check_error_message tc = .ok () ↔
      ∀ el, tc.find "error" = some el →
        ∃ v, el.get "message" = some v ∧ v ≠ "" := by
  cases hf : tc.find "error" with
  | none => simp [check_error_message, hf]
  | some el =>
    cases hm : el.get "message" with
    | none => simp [check_error_message, hf, hm]
    | some v =>
      by_cases hv : v = ""
      · simp [check_error_message, hf, hm, hv]
      · simp [check_error_message, hf, hm, hv]

theorem validate_test_case_step_ok_iff (tc : Element) (a : String) :
    validate_test_case_step tc a = .ok () ↔
      a ∈ tc.keys ∧ check_failure_message tc = .ok () ∧
        check_error_message tc = .ok () := by
  by_cases hc : a ∈ tc.keys
  · cases hcf : check_failure_message tc with
    | error e => simp [validate_test_case_step, hc, hcf]
    | ok u =>
      cases u
      simp [validate_test_case_step, hc, hcf]
  · simp [validate_test_case_step, hc]

theorem validate_test_case_ok_iff (tc : Element) :
    validate_test_case tc = .ok () ↔
      (∀ a ∈ REQUIRED_TESTCASE_ATTRIBUTES, a ∈ tc.keys) ∧
        check_failure_message tc = .ok () ∧ check_error_message tc = .ok () := by
  rw [validate_test_case, first_error_ok_iff]
  constructor
  · intro h
    have hcl := (validate_test_case_step_ok_iff tc "classname").mp
      (h "classname" (by decide))
    exact ⟨fun a ha => ((validate_test_case_step_ok_iff tc a).mp (h a ha)).1,
      hcl.2.1, hcl.2.2⟩
  · rintro ⟨hattrs, hcf, hce⟩ a ha
    exact (validate_test_case_step_ok_iff tc a).mpr ⟨hattrs a ha, hcf, hce⟩

theorem validate_test_cases_ok_iff (root : Element) :
    validate_test_cases root = .ok () ↔
      root.findall TESTCASE_TAG ≠ [] ∧
        ∀ tc ∈ root.findall TESTCASE_TAG, validate_test_case tc = .ok () := by
  cases hc : root.findall TESTCASE_TAG with
  | nil => simp [validate_test_cases, hc]
  | cons t ts =>
    simp only [validate_test_cases, hc]
    simp [first_error_ok_iff]

/-- A valid document with no test-case elements at all. -/
def no_case_root : Element :=
  .mk "testsuite"
    [("time", "12.0"), ("tests", "0"), ("skipped", "0"), ("failures", "0"),
     ("errors", "0")]
    [sample_props]

/-- A test case missing its `file` attribute (and its `name` attribute, so
the failure report falls back to the placeholder). -/
def missing_attr_case : Element :=
  .mk "testcase" [("classname", "FeatureA.TestX")] []

/-- C8: zero test cases is a failure with the no-test-cases reason; a
document whose only test case carries all 5 required attributes (and no
failure/error sub-element) passes the guard; a missing attribute produces
a failure naming the first missing attribute together with the case name,
which falls back to the placeholder when `name` itself is missing. -/
theorem claim_C8_testcase_guard :
    (∀ root : Element, root.findall TESTCASE_TAG = [] →
      validate_test_cases root = .error .noTestCasesFound) ∧
    (∀ root tc : Element, root.findall TESTCASE_TAG = [tc] →
      (∀ a ∈ REQUIRED_TESTCASE_ATTRIBUTES, a ∈ tc.keys) →
      tc.find "failure" = none → tc.find "error" = none →
      validate_test_cases root = .ok ()) ∧
    (∀ (tc : Element) (a : String) (pre post : List String),
      REQUIRED_TESTCASE_ATTRIBUTES = pre ++ a :: post →
      (∀ b ∈ pre, b ∈ tc.keys) → a ∉ tc.keys →
      tc.find "failure" = none → tc.find "error" = none →
      validate_test_case tc =
        .error (.testCaseAttrNotFound a ((tc.get "name").getD "Name Not Found"))) := by
  refine ⟨?_, ?_, ?_⟩
  · intro root h
    simp [validate_test_cases, h]
  · intro root tc h hattrs hcf hce
    rw [validate_test_cases_ok_iff]
    refine ⟨by simp [h], ?_⟩
    intro tc' htc'
    rw [h, List.mem_singleton] at htc'
    subst htc'
    rw [validate_test_case_ok_iff]
    exact ⟨hattrs, by simp [check_failure_message, hcf],
      by simp [check_error_message, hce]⟩
  · intro tc a pre post hsplit hpre ha hcf hce
    rw [validate_test_case, hsplit, first_error_append]
    · have hstep : validate_test_case_step tc a =
          .error (.testCaseAttrNotFound a ((tc.get "name").getD "Name Not Found")) := by
        simp [validate_test_case_step, ha]
      simp [first_error, hstep]
    · intro b hb
      exact (validate_test_case_step_ok_iff tc b).mpr
        ⟨hpre b hb, by simp [check_failure_message, hcf],
          by simp [check_error_message, hce]⟩

/-- Witness for C8 at concrete documents: zero cases fail, the minimal
valid document passes, and a case missing `file` and `name` is reported
with the placeholder case name. -/
theorem claim_C8_testcase_guard_witness :
    validate_test_cases no_case_root = .error .noTestCasesFound ∧
    validate_test_cases sample_root = .ok () ∧
    validate_test_case missing_attr_case =
      .error (.testCaseAttrNotFound "file" "Name Not Found") :=
  ⟨claim_C8_testcase_guard.1 no_case_root rfl,
   claim_C8_testcase_guard.2.1 sample_root sample_case rfl (by decide) rfl rfl,
   claim_C8_testcase_guard.2.2 missing_attr_case "file" ["classname"]
     ["line", "name", "time"] rfl (by decide) (by decide) rfl rfl⟩

/-- A test case whose failure sub-element carries an empty-string
message. -/
def empty_failure_msg_case : Element :=
  .mk "testcase"
    [("classname", "FeatureA.TestX"), ("file", "tests/a.py"), ("line", "1"),
     ("name", "TestX"), ("time", "0.5")]
    [.mk "failure" [("message", "")] []]

/-- A full document around `empty_failure_msg_case`. -/
def empty_failure_msg_root : Element :=
  .mk "testsuite"
    [("time", "12.0"), ("tests", "1"), ("skipped", "0"), ("failures", "0"),
     ("errors", "0")]
    [sample_props, empty_failure_msg_case]

/-- Counterexample to C2: a document whose test case has a failure
sub-element with an empty-string message passes full validation, because
the code checks `failure.get("message") is None`, which the empty string
satisfies — contradicting the claim that an empty failure message fails
validation. -/
theorem claim_C2_counterexample :
    (empty_failure_msg_case.find "failure").map (fun f => f.get "message") =
      some (some "") ∧
    empty_failure_msg_case ∈ empty_failure_msg_root.findall TESTCASE_TAG ∧
    validate_junit_xml sample_float_ok empty_failure_msg_root =
      .ok empty_failure_msg_root := by
  refine ⟨rfl, ?_, rfl⟩
  show empty_failure_msg_case ∈ [empty_failure_msg_case]
  exact List.mem_singleton.mpr rfl

/-- C2 as amended: a failure sub-element fails validation only when its
message attribute is missing (an empty string passes), while an error
sub-element fails validation when its message is missing or the empty
string. -/
theorem claim_C2_amended_messages :
    (∀ (root tc f : Element), tc ∈ root.findall TESTCASE_TAG →
      tc.find "failure" = some f → f.get "message" = none →
      validate_test_cases root ≠ .ok ()) ∧
    (∀ (root tc el : Element), tc ∈ root.findall TESTCASE_TAG →
      tc.find "error" = some el →
      el.get "message" = none ∨ el.get "message" = some "" →
      validate_test_cases root ≠ .ok ()) ∧
    (∀ tc f : Element, tc.find "failure" = some f → f.get "message" = some "" →
      check_failure_message tc = .ok ()) := by
  refine ⟨?_, ?_, ?_⟩
  · intro root tc f htc hf hm hok
    have hcase := ((validate_test_cases_ok_iff root).mp hok).2 tc htc
    have hcf := ((validate_test_case_ok_iff tc).mp hcase).2.1
    have hsome := (check_failure_message_ok_iff tc).mp hcf f hf
    rw [hm] at hsome
    simp at hsome
  · intro root tc el htc hel hm hok
    have hcase := ((validate_test_cases_ok_iff root).mp hok).2 tc htc
    have hce := ((validate_test_case_ok_iff tc).mp hcase).2.2
    obtain ⟨v, hv, hvne⟩ := (check_error_message_ok_iff tc).mp hce el hel
    rcases hm with hm | hm <;> rw [hm] at hv
    · cases hv
    · injection hv with hv'
      exact hvne hv'.symm
  · intro tc f hf hm
    simp [check_failure_message, hf, hm]

/-- A test case whose failure sub-element has no message attribute. -/
def missing_failure_msg_case : Element :=
  .mk "testcase"
    [("classname", "FeatureA.TestX"), ("file", "tests/a.py"), ("line", "1"),
     ("name", "TestX"), ("time", "0.5")]
    [.mk "failure" [] []]

/-- A full document around `missing_failure_msg_case`. -/
def missing_failure_msg_root : Element :=
  .mk "testsuite"
    [("time", "12.0"), ("tests", "1"), ("skipped", "0"), ("failures", "0"),
     ("errors", "0")]
    [sample_props, missing_failure_msg_case]

/-- Witness for the amended C2: a missing failure message fails
validation, while the empty-string failure message passes the failure
check. -/
theorem claim_C2_amended_messages_witness :
    validate_test_cases missing_failure_msg_root ≠ .ok () ∧
    check_failure_message empty_failure_msg_case = .ok () :=
  ⟨claim_C2_amended_messages.1 missing_failure_msg_root missing_failure_msg_case
      (.mk "failure" [] [])
      (show missing_failure_msg_case ∈ [missing_failure_msg_case] from
        List.mem_singleton.mpr rfl) rfl rfl,
   claim_C2_amended_messages.2.2 empty_failure_msg_case
     (.mk "failure" [("message", "")] []) rfl rfl⟩

/-! Lemmas about the feature-bucket grouping of the transformer. -/

theorem buckets_insert_keys (bs : List (String × List CaseRecord)) (f : String)
    (r : CaseRecord) :
    (buckets_insert bs f r).map Prod.fst =
      if f ∈ bs.map Prod.fst then bs.map Prod.fst else bs.map Prod.fst ++ [f] := by
  induction bs with
  | nil => simp [buckets_insert]
  | cons hd tl ih =>
    rcases hd with ⟨k, rs⟩
    by_cases hk : k = f
    · subst hk
      simp [buckets_insert]
    · by_cases hf : f ∈ tl.map Prod.fst
      · simp [buckets_insert, hk, ih, hf, Ne.symm hk]
      · simp [buckets_insert, hk, ih, hf, Ne.symm hk]

theorem dict_get_buckets_insert_same (bs : List (String × List CaseRecord))
    (f : String) (r : CaseRecord) :
    dict_get f (buckets_insert bs f r) = some ((dict_get f bs).getD [] ++ [r]) := by
  induction bs with
  | nil => simp [buckets_insert, dict_get]
  | cons hd tl ih =>
    rcases hd with ⟨k, rs⟩
    by_cases hk : k = f
    · subst hk
      simp [buckets_insert, dict_get]
    · simp [buckets_insert, dict_get, hk, ih]

theorem dict_get_buckets_insert_other (bs : List (String × List CaseRecord))
    (f g : String) (r : CaseRecord) (h : g ≠ f) :
    dict_get g (buckets_insert bs f r) = dict_get g bs := by
  induction bs with
  | nil => simp [buckets_insert, dict_get, Ne.symm h]
  | cons hd tl ih =>
    rcases hd with ⟨k, rs⟩
    by_cases hk : k = f
    · subst hk
      simp [buckets_insert, dict_get, Ne.symm h]
    · by_cases hg : k = g
      · subst hg
        simp [buckets_insert, dict_get, hk]
      · simp [buckets_insert, dict_get, hk, hg, ih]

theorem buckets_insert_sum (bs : List (String × List CaseRecord)) (f : String)
    (r : CaseRecord) :
    ((buckets_insert bs f r).map (fun b => b.2.length)).sum =
      (bs.map (fun b => b.2.length)).sum + 1 := by
  induction bs with
  | nil => simp [buckets_insert]
  | cons hd tl ih =>
    rcases hd with ⟨k, rs⟩
    by_cases hk : k = f
    · subst hk
      simp [buckets_insert]
      omega
    · simp [buckets_insert, hk, ih]
      omega

theorem parse_cases_list_spec (cases : List Element) :
    ∀ bs, (∀ tc ∈ cases, (tc.get "classname").isSome = true) →
      ∃ out, parse_cases_list bs cases = some out ∧
        out.map Prod.fst =
          first_seen_from (bs.map Prod.fst) (cases.map case_feature) ∧
        (∀ f, (dict_get f out).getD [] =
          (dict_get f bs).getD [] ++
            ((cases.filter (fun tc => case_feature tc == f)).map record_of)) ∧
        (out.map (fun b => b.2.length)).sum =
          (bs.map (fun b => b.2.length)).sum + cases.length := by
  induction cases with
  | nil =>
    intro bs _
    exact ⟨bs, rfl, rfl, fun f => by simp, by simp⟩
  | cons tc rest ih =>
    intro bs hcn
    obtain ⟨cn, hcn0⟩ :=
      Option.isSome_iff_exists.mp (hcn tc (List.mem_cons_self tc rest))
    have hfeat : case_feature tc = featureOf cn := by simp [case_feature, hcn0]
    have hstep : parse_cases_list bs (tc :: rest) =
        parse_cases_list (buckets_insert bs (featureOf cn) (record_of tc)) rest := by
      simp [parse_cases_list, parse_test_case, hcn0]
    obtain ⟨out, hout, hkeys, hget, hsum⟩ :=
      ih (buckets_insert bs (featureOf cn) (record_of tc))
        (fun q hq => hcn q (List.mem_cons_of_mem _ hq))
    refine ⟨out, by rw [hstep]; exact hout, ?_, ?_, ?_⟩
    · rw [hkeys, buckets_insert_keys]
      simp only [List.map_cons, first_seen_from, hfeat]
    · intro f
      rw [hget f]
      by_cases hf : case_feature tc = f
      · subst hf
        rw [hfeat, dict_get_buckets_insert_same]
        simp [List.filter_cons, hfeat, List.append_assoc]
      · have hff : f ≠ featureOf cn := by
          rw [← hfeat]
          exact fun hc => hf hc.symm
        rw [dict_get_buckets_insert_other _ _ _ _ hff]
        simp [List.filter_cons, hf]
    · rw [hsum, buckets_insert_sum]
      simp
      omega

theorem validate_test_cases_classname (root : Element)
    (h : validate_test_cases root = .ok ()) :
    ∀ tc ∈ root.findall TESTCASE_TAG, (tc.get "classname").isSome = true := by
  intro tc htc
  have hcase := ((validate_test_cases_ok_iff root).mp h).2 tc htc
  have hmem := ((validate_test_case_ok_iff tc).mp hcase).1 "classname" (by decide)
  rw [Element.get_isSome_eq_keys_contains]
  exact List.elem_iff.mpr hmem

/-- C4: on a tree whose test-case guard passed, the transformer groups
each test case under the feature equal to the prefix of its classname
before the first dot (the whole classname when there is no dot); bucket
keys appear in first-seen order, each bucket holds exactly the records of
the cases with that feature in document order, and the bucket sizes add up
to the number of cases, so every case lands in exactly one bucket. -/
theorem claim_C4_feature_grouping (root : Element)
    (h : validate_test_cases root = .ok ()) :
    ∃ out, parse_test_cases root = some out ∧
      out.map Prod.fst =
        first_seen ((root.findall TESTCASE_TAG).map case_feature) ∧
      (∀ f, (dict_get f out).getD [] =
        ((root.findall TESTCASE_TAG).filter
            (fun tc => case_feature tc == f)).map record_of) ∧
      (out.map (fun b => b.2.length)).sum = (root.findall TESTCASE_TAG).length ∧
      ∀ cn, featureOf cn = String.mk (cn.toList.takeWhile (fun c => c != '.')) := by
  obtain ⟨out, hout, hkeys, hget, hsum⟩ :=
    parse_cases_list_spec (root.findall TESTCASE_TAG) []
      (validate_test_cases_classname root h)
  refine ⟨out, hout, hkeys, ?_, ?_, featureOf_takeWhile⟩
  · intro f
    have hg := hget f
    simpa [dict_get] using hg
  · simpa using hsum

/-- A second test case in feature `FeatureA`. -/
def case_A2 : Element :=
  .mk "testcase"
    [("classname", "FeatureA.TestY"), ("file", "tests/a.py"), ("line", "2"),
     ("name", "TestY"), ("time", "0.1")] []

/-- A test case whose classname has no dot. -/
def case_B : Element :=
  .mk "testcase"
    [("classname", "NoDotHere"), ("file", "tests/b.py"), ("line", "3"),
     ("name", "TestZ"), ("time", "0.2")] []

/-- A valid document with three test cases across two features. -/
def grouping_root : Element :=
  .mk "testsuite"
    [("time", "12.0"), ("tests", "3"), ("skipped", "0"), ("failures", "0"),
     ("errors", "0")]
    [sample_props, sample_case, case_A2, case_B]

/-- Witness for C4: the theorem instantiated at a concrete validated
document with two `FeatureA` cases and one dotless `NoDotHere` case. -/
theorem claim_C4_feature_grouping_witness :
    ∃ out, parse_test_cases grouping_root = some out ∧
      out.map Prod.fst =
        first_seen ((grouping_root.findall TESTCASE_TAG).map case_feature) ∧
      (∀ f, (dict_get f out).getD [] =
        ((grouping_root.findall TESTCASE_TAG).filter
            (fun tc => case_feature tc == f)).map record_of) ∧
      (out.map (fun b => b.2.length)).sum =
        (grouping_root.findall TESTCASE_TAG).length ∧
      ∀ cn, featureOf cn = String.mk (cn.toList.takeWhile (fun c => c != '.')) :=
  claim_C4_feature_grouping grouping_root rfl

end JUnitXml
